import Mathlib

/-!
# Verification of the tool-augmented agent loop of the LangChain notebooks

This file gives a shallow embedding, in Lean 4, of the executable content of
the repository `Developing_LLMs_Applications_with_LangChain`:

* the custom tool handlers defined in `src/07_LangChain_agents.ipynb`
  (`hypotenuse_length`) and `src/09_Dynamic_Chat_Agents.ipynb`
  (`date_checker`, `check_palindrome`, `palindrome_checker`), and
* the LangGraph workflow of `src/09_Dynamic_Chat_Agents.ipynb`
  (`call_model`, `should_continue`, the `tools` node, and the wiring
  `START → chatbot`, `chatbot → {tools, END}`, `tools → chatbot`),
  modelled as a step function on a node/message-log state.

Python semantics are translated explicitly: exceptions become `Except PyErr`,
Python's `str.split`, `str.strip`, `float()` and list indexing are modelled
as executable Lean functions on `List Char`.  Unicode-sensitive predicates
(`str.isalnum`, `str.lower`, whitespace) are modelled on their ASCII
fragment, where all the repository's example inputs live.  Numeric values
are modelled exactly (over `ℚ`, with `Real.sqrt` for `math.sqrt`), ignoring
IEEE-754 rounding.  The external language model is an oracle parameter
`LLM : List Message → String × List ToolCall`.
-/

deriving instance DecidableEq for Except

/-- Python exception values that the embedded code can raise. -/
inductive PyErr : Type where
  | valueError : String → PyErr
  | indexError : PyErr
deriving DecidableEq, Repr

/-- `str(e)`-style human-readable rendering of a caught exception,
used when an exception is converted into tool-result content. -/
def errString : PyErr → String
  | .valueError m => "ValueError: " ++ m
  | .indexError => "IndexError: list index out of range"

/-! ## Python string primitives (ASCII fragment) -/

/-- Python `str.split(sep)` for a one-character separator, on the character
list of the string.  `''.split(',') = ['']`, and the result always has one
more field than there are separators; in particular it is never empty. -/
def pySplit (sep : Char) : List Char → List (List Char)
  | [] => [[]]
  | c :: r =>
    if c = sep then [] :: pySplit sep r
    else
      match pySplit sep r with
      | f :: t => (c :: f) :: t
      | [] => [[c]]

/-- Python `str.strip()`: remove leading and trailing whitespace
(modelled on ASCII whitespace). -/
def pyStrip (s : List Char) : List Char :=
  ((s.dropWhile Char.isWhitespace).reverse.dropWhile Char.isWhitespace).reverse

/-- Numeric value of a digit character. -/
def digitVal (c : Char) : Nat := c.toNat - '0'.toNat

/-- Value of a digit string read in base 10. -/
def digitsVal (l : List Char) : Nat := l.foldl (fun a c => 10 * a + digitVal c) 0

/-- The syntactic phase of Python `float(s)` on an already-stripped string:
recognise the decimal-literal form
`[sign] (digits [. digits] | . digits) [(e|E) [sign] digits]`
(with ASCII digits) and return its components
`(sign-is-negative, integer digits, fraction digits,
exponent-is-negative, exponent digits)`, or `none` where Python raises
`ValueError`.  The special forms `inf`/`nan` and underscore digit
separators are not modelled (no repository input uses them). -/
def pyFloatParse (s : List Char) :
    Option (Bool × List Char × List Char × Bool × List Char) :=
  let (sgnNeg, s1) : Bool × List Char :=
    match s with
    | '+' :: r => (false, r)
    | '-' :: r => (true, r)
    | r => (false, r)
  let ip := s1.takeWhile Char.isDigit
  let r1 := s1.dropWhile Char.isDigit
  let (fp, r2) : List Char × List Char :=
    match r1 with
    | '.' :: r => (r.takeWhile Char.isDigit, r.dropWhile Char.isDigit)
    | r => ([], r)
  if ip = [] ∧ fp = [] then none
  else
    match r2 with
    | [] => some (sgnNeg, ip, fp, false, [])
    | e :: r3 =>
      if e = 'e' ∨ e = 'E' then
        let (eneg, r4) : Bool × List Char :=
          match r3 with
          | '+' :: r => (false, r)
          | '-' :: r => (true, r)
          | r => (false, r)
        let ed := r4.takeWhile Char.isDigit
        let r5 := r4.dropWhile Char.isDigit
        if ed = [] ∨ r5 ≠ [] then none
        else some (sgnNeg, ip, fp, eneg, ed)
      else none

/-- The exact rational value denoted by the components of a float literal:
`sign * (integer + fraction / 10 ^ |fraction|) * 10 ^ ±exponent`. -/
def ratOfParts : Bool × List Char × List Char × Bool × List Char → ℚ :=
  fun (sn, ip, fp, en, ed) =>
    (if sn then (-1 : ℚ) else 1) *
      ((digitsVal ip : ℚ) + (digitsVal fp : ℚ) / (10 : ℚ) ^ fp.length) *
      (if en then ((10 : ℚ) ^ digitsVal ed)⁻¹ else (10 : ℚ) ^ digitsVal ed)

/-- Python `float(s)` on an already-stripped string, returning the exact
rational value, or `none` where Python raises `ValueError` (exact
arithmetic; IEEE-754 rounding is not modelled). -/
def pyFloat (s : List Char) : Option ℚ := (pyFloatParse s).map ratOfParts

/-! ## The palindrome tools (`src/09_Dynamic_Chat_Agents.ipynb`) -/

/-- The cleaning step shared by both palindrome tools:
`''.join(char.lower() for char in text if char.isalnum())`
(`isalnum`/`lower` modelled on their ASCII fragment). -/
def cleanedOf (text : String) : List Char :=
  (text.toList.filter Char.isAlphanum).map Char.toLower

/-- The `check_palindrome` tool of `src/09_Dynamic_Chat_Agents.ipynb`:
clean the text, compare with its own reverse (`cleaned == cleaned[::-1]`),
and report the verdict as a sentence. -/
def check_palindrome (text : String) : String :=
  let cleaned := cleanedOf text
  if cleaned = cleaned.reverse then
    "The phrase or word '" ++ text ++ "' is a palindrome."
  else
    "The phrase or word '" ++ text ++ "' is not a palindrome."

/-- The `palindrome_checker` tool of `src/09_Dynamic_Chat_Agents.ipynb`;
its body is identical to `check_palindrome` (the notebook defines the same
logic twice under two tool names). -/
def palindrome_checker (text : String) : String :=
  let cleaned_text := cleanedOf text
  if cleaned_text = cleaned_text.reverse then
    "The phrase or word '" ++ text ++ "' is a palindrome."
  else
    "The phrase or word '" ++ text ++ "' is not a palindrome."

/-! ## The date tool (`src/09_Dynamic_Chat_Agents.ipynb`) -/

/-- The `date_checker` tool: it calls the LLM (an oracle here, which may
fail with an exception) inside `try`, and its `except` clause converts any
exception into the string `"Error retrieving events: " ++ str(e)`.  The
handler therefore always returns normally, so its result is always
`Except.ok`. -/
def date_checker (llmInvoke : String → Except PyErr String) (date : String) :
    Except PyErr String :=
  .ok
    (match llmInvoke
        ("List important historical events that occurred on " ++ date ++ ".") with
      | .ok answer => answer
      | .error e => "Error retrieving events: " ++ errString e)

/-! ## The hypotenuse tool (`src/07_LangChain_agents.ipynb`) -/

/-- Python's `ValueError` message for `float(s)` on a non-numeric string. -/
def floatErrMsg (s : List Char) : String :=
  "could not convert string to float: '" ++ String.mk s ++ "'"

/-- The fallible part of `hypotenuse_length`, factored over the list of
comma-separated fields `sides = input.split(',')`:
`a = float(sides[0].strip())` (a `ValueError` if the first field is not a
float literal), then `b = float(sides[1].strip())` (an `IndexError` if
there is no second field, a `ValueError` if it is not a float literal). -/
def parseFromSides (sides : List (List Char)) : Except PyErr (ℚ × ℚ) :=
  match pyFloat (pyStrip (sides.headD [])) with
  | none => .error (.valueError (floatErrMsg (pyStrip (sides.headD []))))
  | some a =>
    match sides with
    | _ :: f1 :: _ =>
      match pyFloat (pyStrip f1) with
      | none => .error (.valueError (floatErrMsg (pyStrip f1)))
      | some b => .ok (a, b)
    | _ => .error .indexError

/-- The parsing phase of the `hypotenuse_length` tool of
`src/07_LangChain_agents.ipynb`: split the input on commas and convert the
first two fields to floats. -/
def hypotenuse_parse (input : String) : Except PyErr (ℚ × ℚ) :=
  parseFromSides (pySplit ',' input.toList)

/-- The `hypotenuse_length` tool of `src/07_LangChain_agents.ipynb`:
`math.sqrt(a**2 + b**2)` applied to the two parsed sides; any exception of
the parsing phase propagates (the handler has no `try`). -/
noncomputable def hypotenuse_length (input : String) : Except PyErr ℝ :=
  (hypotenuse_parse input).map (fun p => Real.sqrt ((p.1 : ℝ) ^ 2 + (p.2 : ℝ) ^ 2))

/-! ## The LangGraph workflow (`src/09_Dynamic_Chat_Agents.ipynb`)

The notebook builds `StateGraph(MessagesState)` with nodes `chatbot`
(`call_model`) and `tools` (`ToolNode(tools)`), edges `START → chatbot`,
`tools → chatbot`, and the conditional edge
`chatbot → should_continue → {tools, END}`.  `MessagesState` is an
append-only message log (the `add_messages` reducer appends the messages a
node returns), modelled here as a `List Message`; the graph position is a
`Node`.  The external model (`model_with_tools.invoke`) always returns an
`AIMessage`, modelled by an oracle producing its content and tool calls. -/

/-- Message roles of the conversation log. -/
inductive Role : Type where
  | user
  | assistant
  | tool
deriving DecidableEq, Repr

/-- A tool call carried by an assistant message.  LangChain represents a
tool call as a string-keyed dictionary; the fields used by the notebook
are modelled as named fields, including the `"response"` key that the
dead echo branch of `call_model` reads (`tool_calls[0]["response"]`). -/
structure ToolCall : Type where
  id : String
  name : String
  args : String
  response : String
deriving DecidableEq, Repr

/-- A message of the conversation log (`HumanMessage` / `AIMessage` /
`ToolMessage`).  `tool_calls` is empty except on tool-calling assistant
messages; `tool_call_id` links a tool-role result to its originating
call. -/
structure Message : Type where
  role : Role
  content : String
  tool_calls : List ToolCall
  tool_call_id : Option String
deriving DecidableEq, Repr

/-- The external completion oracle: the content and tool calls of the
`AIMessage` that `model_with_tools.invoke(messages)` returns for a given
message history. -/
def LLM : Type := List Message → String × List ToolCall

/-- The assistant `Message` built from an oracle answer. -/
def assistantOf (r : String × List ToolCall) : Message :=
  { role := .assistant, content := r.1, tool_calls := r.2, tool_call_id := none }

/-- The `call_model` node function of `src/09_Dynamic_Chat_Agents.ipynb`:
read `state["messages"][-1]` (`none` models the `IndexError` on an empty
log); if it is an `AIMessage` with tool calls, return a single assistant
message echoing `tool_calls[0]["response"]`; otherwise return the
assistant message produced by `model_with_tools.invoke` on the full
history.  The returned list is what `add_messages` appends. -/
def call_model (llm : LLM) (msgs : List Message) : Option (List Message) :=
  match msgs.getLast? with
  | none => none
  | some last =>
    if last.role = .assistant ∧ last.tool_calls ≠ [] then
      some [{ role := .assistant,
              content := (last.tool_calls.headD ⟨"", "", "", ""⟩).response,
              tool_calls := [], tool_call_id := none }]
    else some [assistantOf (llm msgs)]

/-- The two targets of the conditional edge out of `chatbot`. -/
inductive Route : Type where
  | toTools
  | toEnd
deriving DecidableEq, Repr

/-- The `should_continue` routing function of
`src/09_Dynamic_Chat_Agents.ipynb`: `"tools" if last_message.tool_calls
else END` (a non-empty Python list is truthy); `none` models the
`IndexError` on an empty log. -/
def should_continue (msgs : List Message) : Option Route :=
  match msgs.getLast? with
  | none => none
  | some last => some (if last.tool_calls ≠ [] then .toTools else .toEnd)

/-- Modelled from the spec: the execution semantics of the `tools` node.
The notebook only constructs `ToolNode(tools)`; the node's behaviour is
LangGraph library code absent from the repository.  Spec §4.3: for each
`ToolCall` of the assistant message, in the order they appear, invoke the
tool (`invokeTool` is the oracle giving each result's content) and append
each `ToolResult` as a tool-role `Message` in the same order. -/
def tool_node (invokeTool : ToolCall → String) (last : Message) : List Message :=
  last.tool_calls.map (fun tc =>
    { role := .tool, content := invokeTool tc, tool_calls := [],
      tool_call_id := some tc.id })

/-- Graph position: the two nodes of the workflow plus the terminal END. -/
inductive Node : Type where
  | chatbot
  | tools
  | done
deriving DecidableEq, Repr

/-- A configuration of the compiled workflow: current node and message log. -/
abbrev AgentState : Type := Node × List Message

/-- One transition of the compiled workflow: at `chatbot` run `call_model`,
append its messages and route via `should_continue`; at `tools` append the
tool results and return to `chatbot`; `done` (END) is terminal.  `none`
models a raised exception (empty-log indexing). -/
def workflow_step (llm : LLM) (invokeTool : ToolCall → String) :
    AgentState → Option AgentState
  | (.chatbot, msgs) =>
    match call_model llm msgs with
    | none => none
    | some appended =>
      let msgs2 := msgs ++ appended
      match should_continue msgs2 with
      | none => none
      | some .toTools => some (.tools, msgs2)
      | some .toEnd => some (.done, msgs2)
  | (.tools, msgs) =>
    match msgs.getLast? with
    | none => none
    | some last => some (.chatbot, msgs ++ tool_node invokeTool last)
  | (.done, _) => none

/-- Run `n` transitions of the workflow (`none` once a step is undefined). -/
def workflow_run (llm : LLM) (invokeTool : ToolCall → String)
    (s : AgentState) : Nat → Option AgentState
  | 0 => some s
  | n + 1 =>
    match workflow_step llm invokeTool s with
    | none => none
    | some s2 => workflow_run llm invokeTool s2 n

/-- States reachable from `s` by zero or more workflow transitions. -/
inductive Reachable (llm : LLM) (invokeTool : ToolCall → String) :
    AgentState → AgentState → Prop where
  | refl (s : AgentState) : Reachable llm invokeTool s s
  | tail {s t u : AgentState} : Reachable llm invokeTool s t →
      workflow_step llm invokeTool t = some u → Reachable llm invokeTool s u

/-- The invariant of the compiled workflow that makes the echo branch of
`call_model` dead code (`LoopInv`): `chatbot` is only ever entered with a user or
tool message last (START receives the user's message; `tools` appends at
least one tool result), and `tools` is only ever entered right after an
assistant message carrying tool calls. -/
def LoopInv : AgentState → Prop
  | (.chatbot, msgs) =>
    ∃ m, msgs.getLast? = some m ∧ (m.role = .user ∨ m.role = .tool)
  | (.tools, msgs) =>
    ∃ m, msgs.getLast? = some m ∧ m.role = .assistant ∧ m.tool_calls ≠ []
  | (.done, _) => True

/-! ## Spec-modelled ModelClient (streaming) -/

/-- Cut a list into consecutive chunks at the given sizes; whatever the
size schedule, the final fragment carries the remainder, so the chunks
always concatenate back to the input. -/
def chunkList {α : Type} : List Nat → List α → List (List α)
  | [], s => [s]
  | n :: ns, s => s.take n :: chunkList ns (s.drop n)

/-- Modelled from the spec: `ModelClient.complete` (§4.2) — the
non-streaming completion call, returning the assistant `Message` for a
message history.  The repository delegates completion to vendor SDKs not
present in src. -/
def ModelClient.complete (client : LLM) (msgs : List Message) : Message :=
  assistantOf (client msgs)

/-- Modelled from the spec: `ModelClient.completeStream` (§4.2) — the
streaming variant produces a finite sequence of incremental text
fragments of the same completion; the fragment boundaries are an
arbitrary chunk-size schedule. -/
def ModelClient.completeStream (client : LLM) (sizes : List Nat)
    (msgs : List Message) : List String :=
  (chunkList sizes (client msgs).1.toList).map String.mk

/-- Modelled from the spec: `ToolRegistry.invoke` (§4.1) — the invocation
layer around a tool handler.  The repository delegates tool invocation to
LangGraph's `ToolNode`, library code absent from src.  Per the spec, it
executes the handler and never propagates handler exceptions: any failure
is caught and converted into a result whose content is a human-readable
error string; a successful result is rendered to text (`render` models
the stringification of the handler's return value). -/
def ToolRegistry.invoke {α : Type} (render : α → String)
    (handler : String → Except PyErr α) (arg : String) : String :=
  match handler arg with
  | .ok v => render v
  | .error e => errString e

/-! ## Concrete configurations used to instantiate the theorems -/

/-- A concrete tool call, for instantiating the loop theorems. -/
def demoCall : ToolCall := ⟨"1", "always_tool", "", ""⟩

/-- A concrete model oracle that requests a tool call on every turn. -/
def demoLlm : LLM := fun _ => ("", [demoCall])

/-- A concrete model oracle that never requests tools. -/
def plainLlm : LLM := fun _ => ("ok", [])

/-- A concrete tool-execution oracle. -/
def demoInvoke : ToolCall → String := fun _ => "result"

/-- A concrete initial user message. -/
def demoUser : Message := ⟨.user, "q", [], none⟩

/-! ## Helper lemmas -/

theorem assistantOf_role (r : String × List ToolCall) :
    (assistantOf r).role = Role.assistant := rfl

theorem assistantOf_tool_calls (r : String × List ToolCall) :
    (assistantOf r).tool_calls = r.2 := rfl

theorem chatbot_step_eq (llm : LLM) (invokeTool : ToolCall → String)
    (msgs : List Message) (m : Message) (hm : msgs.getLast? = some m)
    (hcond : ¬(m.role = Role.assistant ∧ m.tool_calls ≠ [])) :
    workflow_step llm invokeTool (Node.chatbot, msgs) =
      some (if (llm msgs).2 = [] then Node.done else Node.tools,
        msgs ++ [assistantOf (llm msgs)]) := by
  have hcm : call_model llm msgs = some [assistantOf (llm msgs)] := by
    simp [call_model, hm, hcond]
  cases hl : (llm msgs).2 with
  | nil =>
    have hsc : should_continue (msgs ++ [assistantOf (llm msgs)]) =
        some Route.toEnd := by
      simp [should_continue, List.getLast?_concat, assistantOf_tool_calls, hl]
    simp [workflow_step, hcm, hsc, hl]
  | cons a l =>
    have hsc : should_continue (msgs ++ [assistantOf (llm msgs)]) =
        some Route.toTools := by
      simp [should_continue, List.getLast?_concat, assistantOf_tool_calls, hl]
    simp [workflow_step, hcm, hsc, hl]

theorem tools_step_eq (llm : LLM) (invokeTool : ToolCall → String)
    (msgs : List Message) (m : Message) (hm : msgs.getLast? = some m) :
    workflow_step llm invokeTool (Node.tools, msgs) =
      some (Node.chatbot, msgs ++ tool_node invokeTool m) := by
  rw [workflow_step, hm]

theorem tool_node_getLast?_role (invokeTool : ToolCall → String) (m : Message)
    (hcalls : m.tool_calls ≠ []) :
    ∃ r, (tool_node invokeTool m).getLast? = some r ∧ r.role = Role.tool := by
  have h1 : (tool_node invokeTool m).getLast? =
      (m.tool_calls.getLast?).map (fun tc =>
        ({ role := .tool, content := invokeTool tc, tool_calls := [],
           tool_call_id := some tc.id } : Message)) :=
    List.getLast?_map _ _
  cases h2 : m.tool_calls.getLast? with
  | none =>
    rw [List.getLast?_eq_none_iff] at h2
    exact absurd h2 hcalls
  | some tc0 =>
    exact ⟨_, by rw [h1, h2]; rfl, rfl⟩

theorem loopInv_step (llm : LLM) (invokeTool : ToolCall → String)
    {s t : AgentState} (hInv : LoopInv s)
    (hstep : workflow_step llm invokeTool s = some t) : LoopInv t := by
  obtain ⟨node, msgs⟩ := s
  cases node with
  | chatbot =>
    obtain ⟨m, hm, hrole⟩ := hInv
    have hcond : ¬(m.role = Role.assistant ∧ m.tool_calls ≠ []) := by
      rcases hrole with h | h <;> simp [h]
    rw [chatbot_step_eq llm invokeTool msgs m hm hcond] at hstep
    have ht := (Option.some.inj hstep).symm
    rw [ht]
    cases hl : (llm msgs).2 with
    | nil =>
      have hif : (if ([] : List ToolCall) = [] then Node.done else Node.tools) =
          Node.done := rfl
      rw [hif]
      trivial
    | cons a l =>
      have hif : (if (a :: l : List ToolCall) = [] then Node.done else Node.tools) =
          Node.tools := by simp
      rw [hif]
      refine ⟨assistantOf (llm msgs), List.getLast?_concat msgs, rfl, ?_⟩
      rw [assistantOf_tool_calls, hl]
      simp
  | tools =>
    obtain ⟨m, hm, hrole, hcalls⟩ := hInv
    rw [tools_step_eq llm invokeTool msgs m hm] at hstep
    have ht := (Option.some.inj hstep).symm
    rw [ht]
    have hne : tool_node invokeTool m ≠ [] := by
      obtain ⟨tc, tcs, htc⟩ := List.exists_cons_of_ne_nil hcalls
      simp [tool_node, htc]
    obtain ⟨r, hr, hrrole⟩ := tool_node_getLast?_role invokeTool m hcalls
    exact ⟨r, by rw [List.getLast?_append_of_ne_nil _ hne]; exact hr, Or.inr hrrole⟩
  | done =>
    simp [workflow_step] at hstep

theorem loopInv_reachable (llm : LLM) (invokeTool : ToolCall → String)
    {s t : AgentState} (hInv : LoopInv s)
    (hreach : Reachable llm invokeTool s t) : LoopInv t := by
  induction hreach with
  | refl => exact hInv
  | tail _ hstep ih => exact loopInv_step llm invokeTool ih hstep

theorem step_not_done (llm : LLM) (invokeTool : ToolCall → String)
    (hTools : ∀ msgs, (llm msgs).2 ≠ []) {s t : AgentState} (hInv : LoopInv s)
    (hnd : s.1 ≠ Node.done) (hstep : workflow_step llm invokeTool s = some t) :
    t.1 ≠ Node.done := by
  obtain ⟨node, msgs⟩ := s
  cases node with
  | chatbot =>
    obtain ⟨m, hm, hrole⟩ := hInv
    have hcond : ¬(m.role = Role.assistant ∧ m.tool_calls ≠ []) := by
      rcases hrole with h | h <;> simp [h]
    rw [chatbot_step_eq llm invokeTool msgs m hm hcond] at hstep
    have ht := (Option.some.inj hstep).symm
    rw [ht, if_neg (hTools msgs)]
    simp
  | tools =>
    obtain ⟨m, hm, _, _⟩ := hInv
    rw [tools_step_eq llm invokeTool msgs m hm] at hstep
    have ht := (Option.some.inj hstep).symm
    rw [ht]
    simp
  | done => exact absurd rfl hnd

theorem run_keeps_not_done (llm : LLM) (invokeTool : ToolCall → String)
    (hTools : ∀ msgs, (llm msgs).2 ≠ []) :
    ∀ (n : Nat) (s t : AgentState), LoopInv s → s.1 ≠ Node.done →
      workflow_run llm invokeTool s n = some t →
      LoopInv t ∧ t.1 ≠ Node.done := by
  intro n
  induction n with
  | zero =>
    intro s t h1 h2 hrun
    simp [workflow_run] at hrun
    rw [← hrun]
    exact ⟨h1, h2⟩
  | succ k ih =>
    intro s t h1 h2 hrun
    rw [workflow_run] at hrun
    cases hstep : workflow_step llm invokeTool s with
    | none => rw [hstep] at hrun; cases hrun
    | some s2 =>
      rw [hstep] at hrun
      exact ih s2 t (loopInv_step llm invokeTool h1 hstep)
        (step_not_done llm invokeTool hTools h1 h2 hstep) hrun

theorem pal_strings_ne (text : String) :
    ("The phrase or word '" ++ text ++ "' is a palindrome.") ≠
      ("The phrase or word '" ++ text ++ "' is not a palindrome.") := by
  intro h
  have h' := congrArg String.length h
  rw [String.length_append, String.length_append, String.length_append,
    String.length_append] at h'
  have e1 : ("' is a palindrome." : String).length = 18 := by decide
  have e2 : ("' is not a palindrome." : String).length = 22 := by decide
  rw [e1, e2] at h'
  omega

/-! ## The claims -/

/-- C7: the `palindrome_checker` tool (and the identical `check_palindrome`
tool) applied to `"level"` returns the affirmative palindrome statement,
not a negative or error result. -/
theorem palindrome_level_affirmative :
    palindrome_checker "level" = "The phrase or word 'level' is a palindrome."
    ∧ check_palindrome "level" = "The phrase or word 'level' is a palindrome." := by
  constructor <;> decide

/-- C9: for every input string, the palindrome tool answers the affirmative
sentence iff the subsequence of its alphanumeric characters, lowercased
(`cleanedOf`), equals its own reverse; consequently any input with no
alphanumeric characters at all (the empty string included) is reported as
a palindrome.  The same holds for the identical `check_palindrome`. -/
theorem palindrome_classification (text : String) :
    (palindrome_checker text =
        "The phrase or word '" ++ text ++ "' is a palindrome." ↔
      cleanedOf text = (cleanedOf text).reverse)
    ∧ (check_palindrome text = palindrome_checker text)
    ∧ ((∀ c ∈ text.toList, ¬ (c.isAlphanum = true)) →
        palindrome_checker text =
          "The phrase or word '" ++ text ++ "' is a palindrome.") := by
  have key : palindrome_checker text =
      if cleanedOf text = (cleanedOf text).reverse then
        "The phrase or word '" ++ text ++ "' is a palindrome."
      else "The phrase or word '" ++ text ++ "' is not a palindrome." := rfl
  refine ⟨?_, rfl, ?_⟩
  · rw [key]
    by_cases h : cleanedOf text = (cleanedOf text).reverse
    · rw [if_pos h]
      exact ⟨fun _ => h, fun _ => rfl⟩
    · rw [if_neg h]
      constructor
      · intro hc
        exact absurd hc.symm (pal_strings_ne text)
      · intro hc
        exact absurd hc h
  · intro hnone
    have hf : List.filter Char.isAlphanum text.toList = [] := by
      rw [List.filter_eq_nil_iff]
      exact hnone
    have hc : cleanedOf text = [] := by
      unfold cleanedOf
      rw [hf]
      rfl
    rw [key, hc]
    rfl

/-- Witness for C9 at the alphanumeric-free input `"?!"`. -/
theorem palindrome_classification_witness :
    palindrome_checker "?!" = "The phrase or word '?!' is a palindrome." :=
  (palindrome_classification "?!").2.2 (by decide)

/-- C3: the routing function `should_continue` returns the tool-execution
branch iff the last message carries a non-empty `tool_calls` sequence, and
the terminal branch (END) otherwise; hence a model result with no tool
calls makes the workflow step from `chatbot` straight to END. -/
theorem should_continue_routing (llm : LLM) (invokeTool : ToolCall → String)
    (msgs : List Message) (m : Message) (h : msgs.getLast? = some m) :
    (should_continue msgs = some Route.toTools ↔ m.tool_calls ≠ [])
    ∧ (should_continue msgs = some Route.toEnd ↔ m.tool_calls = [])
    ∧ ((llm msgs).2 = [] → ¬(m.role = .assistant ∧ m.tool_calls ≠ []) →
        workflow_step llm invokeTool (.chatbot, msgs) =
          some (.done, msgs ++ [assistantOf (llm msgs)])) := by
  refine ⟨?_, ?_, ?_⟩
  · by_cases hc : m.tool_calls = [] <;> simp [should_continue, h, hc]
  · by_cases hc : m.tool_calls = [] <;> simp [should_continue, h, hc]
  · intro h0 h1
    simp [workflow_step, call_model, h, h1, should_continue,
      List.getLast?_concat, assistantOf, h0]

/-- Witness for C3: a log whose last message is a plain user message, with
an oracle that requests no tools, routes to END. -/
theorem should_continue_routing_witness :
    should_continue [⟨Role.user, "hi", [], none⟩] = some Route.toEnd :=
  ((should_continue_routing (fun _ => ("ok", [])) (fun _ => "")
    [⟨Role.user, "hi", [], none⟩] ⟨Role.user, "hi", [], none⟩ rfl).2.1).mpr rfl

/-- C5 (tool-node semantics modelled from spec §4.3): from the `tools`
node the workflow appends, in one atomic transition before control returns
to the model node, exactly one tool-role result message per tool call of
the assistant message, in the same order (the `i`-th result references the
`i`-th call's id). -/
theorem tools_step_appends_paired_results (llm : LLM)
    (invokeTool : ToolCall → String) (msgs : List Message) (m : Message)
    (h : msgs.getLast? = some m) :
    workflow_step llm invokeTool (.tools, msgs) =
      some (.chatbot, msgs ++ tool_node invokeTool m)
    ∧ (tool_node invokeTool m).length = m.tool_calls.length
    ∧ (tool_node invokeTool m).map Message.tool_call_id =
        m.tool_calls.map (fun tc => some tc.id)
    ∧ ∀ r ∈ tool_node invokeTool m, r.role = Role.tool := by
  refine ⟨by simp [workflow_step, h], by simp [tool_node], ?_, ?_⟩
  · simp [tool_node, List.map_map]
  · intro r hr
    simp [tool_node] at hr
    obtain ⟨tc, _, rfl⟩ := hr
    rfl

/-- Witness for C5 on a two-tool-call assistant message. -/
theorem tools_step_appends_paired_results_witness :
    workflow_step (fun _ => ("", [])) (fun tc => tc.name)
        (.tools, [⟨Role.assistant, "", [⟨"1", "a", "", ""⟩, ⟨"2", "b", "", ""⟩], none⟩]) =
      some (.chatbot,
        [⟨Role.assistant, "", [⟨"1", "a", "", ""⟩, ⟨"2", "b", "", ""⟩], none⟩,
         ⟨Role.tool, "a", [], some "1"⟩, ⟨Role.tool, "b", [], some "2"⟩]) :=
  (tools_step_appends_paired_results (fun _ => ("", [])) (fun tc => tc.name)
    [⟨Role.assistant, "", [⟨"1", "a", "", ""⟩, ⟨"2", "b", "", ""⟩], none⟩]
    ⟨Role.assistant, "", [⟨"1", "a", "", ""⟩, ⟨"2", "b", "", ""⟩], none⟩ rfl).1

/-- C1: after a `tools` step appends its tool results the workflow always
transitions back to `chatbot`, and in every run that starts from a log
ending in a user message, whenever `chatbot` executes, the appended
assistant message is exactly the model's answer on the full message
history (`assistantOf (llm s.2)`): the echo branch of `call_model`, which
would copy a field of the preceding assistant message's `tool_calls`
instead of invoking the model, is never taken. -/
theorem always_requery_after_tools (llm : LLM) (invokeTool : ToolCall → String) :
    (∀ msgs m, msgs.getLast? = some m →
      workflow_step llm invokeTool (.tools, msgs) =
        some (.chatbot, msgs ++ tool_node invokeTool m))
    ∧ (∀ (msgs0 : List Message) (u : Message) (s : AgentState),
        msgs0.getLast? = some u → u.role = Role.user →
        Reachable llm invokeTool (.chatbot, msgs0) s → s.1 = Node.chatbot →
        call_model llm s.2 = some [assistantOf (llm s.2)]) := by
  constructor
  · intro msgs m hm
    exact tools_step_eq llm invokeTool msgs m hm
  · intro msgs0 u s h0 hu hreach hs
    have hInv0 : LoopInv (Node.chatbot, msgs0) := ⟨u, h0, Or.inl hu⟩
    have hInv := loopInv_reachable llm invokeTool hInv0 hreach
    obtain ⟨node, msgs⟩ := s
    cases hs
    obtain ⟨m, hm, hrole⟩ := hInv
    have hcond : ¬(m.role = Role.assistant ∧ m.tool_calls ≠ []) := by
      rcases hrole with h | h <;> simp [h]
    simp [call_model, hm, hcond]

/-- Witness for C1 at the start of a run from a single user message. -/
theorem always_requery_after_tools_witness :
    call_model demoLlm [demoUser] =
      some [⟨Role.assistant, "", [demoCall], none⟩] :=
  (always_requery_after_tools demoLlm demoInvoke).2 [demoUser] demoUser
    (Node.chatbot, [demoUser]) (by decide) rfl (Reachable.refl _) rfl

/-- C4 (amended): the repository's workflow enforces no round-trip cap at
all: against a model oracle that requests a tool call on every turn, no
number of transitions from a user message ever reaches the END node (and
a fortiori no truncation-flagging message is ever appended); any
termination bound lives in third-party runtime configuration outside the
repository. -/
theorem no_round_trip_cap (llm : LLM) (invokeTool : ToolCall → String)
    (hTools : ∀ msgs, (llm msgs).2 ≠ [])
    (msgs0 : List Message) (u : Message) (h0 : msgs0.getLast? = some u)
    (hu : u.role = Role.user) :
    ∀ (n : Nat) (s : AgentState),
      workflow_run llm invokeTool (Node.chatbot, msgs0) n = some s →
      s.1 ≠ Node.done := by
  intro n s hrun
  exact (run_keeps_not_done llm invokeTool hTools n (Node.chatbot, msgs0) s
    ⟨u, h0, Or.inl hu⟩ (by simp) hrun).2

/-- Witness for C4's amended statement: one transition under the
always-tool-calling oracle lands on the `tools` node, not END. -/
theorem no_round_trip_cap_witness : Node.tools ≠ Node.done :=
  no_round_trip_cap demoLlm demoInvoke (fun _ => List.cons_ne_nil _ _)
    [demoUser] demoUser (by decide) rfl 1
    (Node.tools, [demoUser, ⟨Role.assistant, "", [demoCall], none⟩]) (by decide)

/-- Counterexample to C4 as stated: under an always-tool-calling model
oracle the workflow is still at `chatbot` — not at END, with no
truncation message — after 40 transitions, i.e. 20 full model/tool round
trips, double the claimed default cap of about 10. -/
theorem no_round_trip_cap_counterexample :
    (workflow_run demoLlm demoInvoke (Node.chatbot, [demoUser]) 40).map Prod.fst =
      some Node.chatbot := by decide

/-! ## Hypotenuse parsing helper lemmas -/

theorem hyp_parse_3_4 : hypotenuse_parse "3, 4" = .ok (3, 4) := by
  have h1 : pySplit ',' ['3', ',', ' ', '4'] = [['3'], [' ', '4']] := by decide
  have h2 : pyFloatParse (pyStrip ['3']) = some (false, ['3'], [], false, []) := by decide
  have h3 : pyFloatParse (pyStrip [' ', '4']) = some (false, ['4'], [], false, []) := by decide
  simp [hypotenuse_parse, parseFromSides, h1, pyFloat, h2, h3, ratOfParts, digitsVal,
    show digitVal '3' = 3 from by decide, show digitVal '4' = 4 from by decide]

theorem hyp_parse_abc : hypotenuse_parse "abc" =
    .error (.valueError "could not convert string to float: 'abc'") := by decide

theorem pySplit_no_sep (sep : Char) :
    ∀ s : List Char, sep ∉ s → pySplit sep s = [s] := by
  intro s
  induction s with
  | nil => intro _; rfl
  | cons c r ih =>
    intro h
    have hc : ¬(c = sep) := fun hc => h (by rw [hc]; exact List.mem_cons_self _ _)
    have hr : sep ∉ r := fun hr => h (List.mem_cons_of_mem _ hr)
    simp only [pySplit, if_neg hc, ih hr]

theorem pySplit_append (sep : Char) :
    ∀ (s1 s2 : List Char), sep ∉ s1 →
      pySplit sep (s1 ++ sep :: s2) = s1 :: pySplit sep s2 := by
  intro s1
  induction s1 with
  | nil =>
    intro s2 _
    simp [pySplit]
  | cons c r ih =>
    intro s2 h
    have hc : ¬(c = sep) := fun hc => h (by rw [hc]; exact List.mem_cons_self _ _)
    have hr : sep ∉ r := fun hr => h (List.mem_cons_of_mem _ hr)
    rw [List.cons_append]
    simp only [pySplit]
    rw [if_neg hc, ih s2 hr]

theorem toList_append_comma (s1 s2 : String) :
    (s1 ++ "," ++ s2).toList = s1.toList ++ ',' :: s2.toList := by
  show (s1 ++ "," ++ s2).data = s1.data ++ ',' :: s2.data
  rw [String.data_append, String.data_append, List.append_assoc]
  rfl

theorem except_map_error_iff {α β : Type} (f : α → β) (x : Except PyErr α) :
    (∃ e, x.map f = .error e) ↔ (∃ e, x = .error e) := by
  cases x <;> simp [Except.map]

theorem parseFromSides_error_iff (sides : List (List Char)) :
    (∃ e, parseFromSides sides = .error e) ↔
      ¬(2 ≤ sides.length
        ∧ (pyFloat (pyStrip (sides.headD []))).isSome = true
        ∧ (pyFloat (pyStrip (sides.getD 1 []))).isSome = true) := by
  cases sides with
  | nil =>
    have hs : pyStrip ([] : List Char) = [] := by decide
    have h0 : pyFloat ([] : List Char) = none := by decide
    simp [parseFromSides, hs, h0]
  | cons f0 rest =>
    cases rest with
    | nil =>
      cases h0 : pyFloat (pyStrip f0) with
      | none => simp [parseFromSides, h0]
      | some a => simp [parseFromSides, h0]
    | cons f1 rest2 =>
      cases h0 : pyFloat (pyStrip f0) with
      | none => simp [parseFromSides, h0]
      | some a =>
        cases h1 : pyFloat (pyStrip f1) with
        | none => simp [parseFromSides, h0, h1, List.getD]
        | some b => simp [parseFromSides, h0, h1, List.getD]

theorem parseFromSides_take2 :
    ∀ (s t : List (List Char)), s.take 2 = t.take 2 →
      parseFromSides s = parseFromSides t := by
  intro s t h
  match s, t with
  | [], [] => rfl
  | [], b :: t => simp [List.take] at h
  | a :: s, [] => simp [List.take] at h
  | [a], [b] =>
    simp [List.take] at h
    rw [h]
  | [a], b :: b2 :: t => simp [List.take] at h
  | a :: a2 :: s, [b] => simp [List.take] at h
  | a :: a2 :: s, b :: b2 :: t =>
    simp [List.take] at h
    obtain ⟨rfl, rfl⟩ := h
    cases hp : pyFloat (pyStrip a) with
    | none => simp [parseFromSides, hp]
    | some v => simp [parseFromSides, hp]

theorem pyFloat_digits_12 : pyFloat (pyStrip "12".toList) = some 12 := by
  have h : pyFloatParse (pyStrip "12".toList) = some (false, ['1', '2'], [], false, []) := by
    decide
  rw [pyFloat, h, Option.map_some']
  norm_num [ratOfParts, digitsVal, show digitVal '1' = 1 from by decide,
    show digitVal '2' = 2 from by decide]

theorem pyFloat_digits_5 : pyFloat (pyStrip " 5".toList) = some 5 := by
  have h : pyFloatParse (pyStrip " 5".toList) = some (false, ['5'], [], false, []) := by
    decide
  rw [pyFloat, h, Option.map_some']
  norm_num [ratOfParts, digitsVal, show digitVal '5' = 5 from by decide]

/-- C6: the `hypotenuse_length` tool returns exactly `5.0` on `"3, 4"`,
and in general, on any input of the form `field1 ++ "," ++ field2` whose
comma-free fields parse as numbers `a` and `b` after stripping, it
returns `√(a² + b²)`. -/
theorem hypotenuse_correct :
    hypotenuse_length "3, 4" = .ok 5
    ∧ ∀ (s1 s2 : String) (a b : ℚ),
        ',' ∉ s1.toList → ',' ∉ s2.toList →
        pyFloat (pyStrip s1.toList) = some a →
        pyFloat (pyStrip s2.toList) = some b →
        hypotenuse_length (s1 ++ "," ++ s2) =
          .ok (Real.sqrt ((a : ℝ) ^ 2 + (b : ℝ) ^ 2)) := by
  constructor
  · rw [hypotenuse_length, hyp_parse_3_4]
    show Except.ok (Real.sqrt (((3 : ℚ) : ℝ) ^ 2 + ((4 : ℚ) : ℝ) ^ 2)) =
      (.ok 5 : Except PyErr ℝ)
    have hv : (((3 : ℚ) : ℝ) ^ 2 + ((4 : ℚ) : ℝ) ^ 2) = (5 : ℝ) ^ 2 := by
      push_cast
      norm_num
    rw [hv, Real.sqrt_sq (by norm_num : (0 : ℝ) ≤ 5)]
  · intro s1 s2 a b h1 h2 ha hb
    have hsplit : pySplit ',' (s1 ++ "," ++ s2).toList = [s1.toList, s2.toList] := by
      rw [toList_append_comma, pySplit_append ',' s1.toList s2.toList h1,
        pySplit_no_sep ',' s2.toList h2]
    have hparse : hypotenuse_parse (s1 ++ "," ++ s2) = .ok (a, b) := by
      have ha2 : pyFloat (pyStrip s1.data) = some a := ha
      have hb2 : pyFloat (pyStrip s2.data) = some b := hb
      rw [hypotenuse_parse, hsplit]
      simp [parseFromSides, ha2, hb2]
    rw [hypotenuse_length, hparse]
    rfl

/-- Witness for C6's general part at the input `"12, 5"` (a 12-5-13
triangle). -/
theorem hypotenuse_correct_witness : hypotenuse_length "12, 5" = .ok 13 := by
  have h := hypotenuse_correct.2 "12" " 5" 12 5 (by decide) (by decide)
    pyFloat_digits_12 pyFloat_digits_5
  have he : ("12" ++ "," ++ " 5" : String) = "12, 5" := rfl
  rw [he] at h
  rw [h]
  have hv : (((12 : ℚ) : ℝ) ^ 2 + ((5 : ℚ) : ℝ) ^ 2) = (13 : ℝ) ^ 2 := by
    push_cast
    norm_num
  rw [hv, Real.sqrt_sq (by norm_num : (0 : ℝ) ≤ 13)]

/-- C10: the `hypotenuse_length` handler is partial: it raises an
exception exactly on the inputs whose comma-split does not have at least
two fields with both of the first two parsing as floats after stripping;
and its outcome depends only on the first two comma-separated fields, so
any further fields are silently ignored. -/
theorem hypotenuse_raises_iff :
    (∀ input : String,
      (∃ e, hypotenuse_length input = .error e) ↔
        ¬(2 ≤ (pySplit ',' input.toList).length
          ∧ (pyFloat (pyStrip ((pySplit ',' input.toList).headD []))).isSome = true
          ∧ (pyFloat (pyStrip ((pySplit ',' input.toList).getD 1 []))).isSome = true))
    ∧ ∀ input1 input2 : String,
        (pySplit ',' input1.toList).take 2 = (pySplit ',' input2.toList).take 2 →
        hypotenuse_length input1 = hypotenuse_length input2 := by
  constructor
  · intro input
    rw [hypotenuse_length, except_map_error_iff, hypotenuse_parse]
    exact parseFromSides_error_iff (pySplit ',' input.toList)
  · intro input1 input2 h
    rw [hypotenuse_length, hypotenuse_length, hypotenuse_parse, hypotenuse_parse,
      parseFromSides_take2 _ _ h]

/-- Witness for C10: a third comma-separated field (`"junk"`, not even
numeric) does not change the result. -/
theorem hypotenuse_raises_iff_witness :
    hypotenuse_length "1, 2, junk" = hypotenuse_length "1, 2" :=
  hypotenuse_raises_iff.2 "1, 2, junk" "1, 2" (by decide)

/-- C2 (invocation layer modelled from spec §4.1): a tool invocation never
propagates a handler exception — every handler failure is converted into a
human-readable error-string result; the `date_checker` handler never even
raises (its `try/except` swallows everything); and in particular invoking
the hypotenuse tool on the malformed input `"abc"` yields the
`ValueError` text as result content instead of an uncaught exception. -/
theorem tool_invoke_never_raises :
    (∀ (α : Type) (render : α → String) (handler : String → Except PyErr α)
        (arg : String) (e : PyErr), handler arg = .error e →
        ToolRegistry.invoke render handler arg = errString e)
    ∧ (∀ (oracle : String → Except PyErr String) (date : String),
        ∃ s, date_checker oracle date = Except.ok s)
    ∧ (∀ render : ℝ → String,
        ToolRegistry.invoke render hypotenuse_length "abc" =
          "ValueError: could not convert string to float: 'abc'") := by
  refine ⟨?_, ?_, ?_⟩
  · intro α render handler arg e he
    simp [ToolRegistry.invoke, he]
  · intro oracle date
    exact ⟨_, rfl⟩
  · intro render
    simp [ToolRegistry.invoke, hypotenuse_length, hyp_parse_abc, Except.map, errString]

/-- Witness for C2 on a handler that fails with an `IndexError`. -/
theorem tool_invoke_never_raises_witness :
    ToolRegistry.invoke (fun n => toString n)
      (fun _ => (Except.error PyErr.indexError : Except PyErr Nat)) "x" =
      "IndexError: list index out of range" :=
  tool_invoke_never_raises.1 Nat (fun n => toString n)
    (fun _ => (Except.error PyErr.indexError : Except PyErr Nat)) "x"
    PyErr.indexError rfl

theorem chunkList_flatten {α : Type} :
    ∀ (ns : List Nat) (s : List α), (chunkList ns s).flatten = s := by
  intro ns
  induction ns with
  | nil => intro s; simp [chunkList]
  | cons n ns ih =>
    intro s
    simp [chunkList, ih, List.take_append_drop]

theorem string_foldl_append :
    ∀ (l : List String) (a : String),
      l.foldl (fun r s => r ++ s) a = a ++ l.foldl (fun r s => r ++ s) "" := by
  intro l
  induction l with
  | nil => intro a; simp [List.foldl, String.append_empty]
  | cons x l ih =>
    intro a
    rw [List.foldl, List.foldl, ih (a ++ x), ih ("" ++ x),
      String.empty_append, String.append_assoc]

theorem string_join_cons (s : String) (l : List String) :
    String.join (s :: l) = s ++ String.join l := by
  rw [String.join, String.join, List.foldl, string_foldl_append, String.empty_append]

theorem string_join_mk :
    ∀ L : List (List Char), String.join (L.map String.mk) = String.mk L.flatten := by
  intro L
  induction L with
  | nil => rfl
  | cons c L ih =>
    rw [List.map_cons, string_join_cons, ih, List.flatten_cons]
    rfl

theorem string_mk_toList (s : String) : String.mk s.toList = s := rfl

/-- C8 (ModelClient modelled from spec §4.2): for the same input
(message history and oracle), concatenating all fragments produced by the
streaming completion equals the content of the non-streaming completion,
whatever the fragment-size schedule. -/
theorem streaming_consistency (client : LLM) (sizes : List Nat)
    (msgs : List Message) :
    String.join (ModelClient.completeStream client sizes msgs) =
      (ModelClient.complete client msgs).content := by
  rw [ModelClient.completeStream, ModelClient.complete, string_join_mk,
    chunkList_flatten]
  exact string_mk_toList _
